import Mathlib

/-!
Verification of the SuperClaude settings-manager and tool-interceptor logic.

The Python sources (`setup/core/settings_manager.py` and
`SuperClaude/Hooks/morph_tool_interceptor.py`) are shallowly embedded below:
JSON documents become an inductive value type, Python dictionaries become
association lists in insertion order (Python dicts preserve insertion order
and have unique keys), and all file-system and environment effects become
explicit state or environment records.  Python functions become pure Lean
functions over those types; fallible code returns `Except`/`Option`.
Because the embedding is purely functional, Python facts such as
"the arguments are not mutated" and "the returned value is a copy, not an
alias" hold by construction: every Lean value is immutable.
-/

/-- JSON-compatible values, as produced by `json.load`: objects are
association lists of string keys in insertion order (Python `dict`),
arrays are lists, scalars are strings, numbers, booleans and null. -/
inductive JsonVal where
  | obj (members : List (String × JsonVal))
  | arr (elems : List JsonVal)
  | str (s : String)
  | num (n : Int)
  | bool (b : Bool)
  | null
deriving Repr

/-- Association-list lookup, the embedding of Python dictionary indexing
`d[key]` / `key in d` (first binding wins; Python dicts have unique keys). -/
def slookup {α : Type} : List (String × α) → String → Option α
  | [], _ => none
  | (k, v) :: rest, key => if k = key then some v else slookup rest key

/-- Association-list update, the embedding of Python `d[key] = val`:
replaces the value in place if the key is present, appends otherwise. -/
def assocSet {α : Type} : List (String × α) → String → α → List (String × α)
  | [], key, val => [(key, val)]
  | (k, v) :: rest, key, val =>
    if k = key then (key, val) :: rest else (k, v) :: assocSet rest key val

mutual

/-- One merge step of `SettingsManager._deep_merge`: when the base holds a
mapping at the key and the overlay value is also a mapping the two are merged
recursively, otherwise the overlay value replaces the base value. -/
def mergeVal : JsonVal → JsonVal → JsonVal
  | JsonVal.obj b, JsonVal.obj o => JsonVal.obj (deep_merge b o)
  | _, v => v

/-- The function `SettingsManager._deep_merge`: start from (a deep copy of) `base` and fold
the overlay entries over it, merging dict-over-dict and replacing otherwise. -/
def deep_merge : List (String × JsonVal) → List (String × JsonVal) → List (String × JsonVal)
  | result, [] => result
  | result, (key, value) :: rest =>
    deep_merge
      (assocSet result key
        (match slookup result key with
         | some bv => mergeVal bv value
         | none => value))
      rest

end

/-- The value the merged dictionary holds at an overlay key, as a function of
the base binding (if any) and the overlay value.  This packages the branch of
`_deep_merge` taken for one overlay entry; `deep_merge` steps through
`assocSet result key (mergeStepVal (slookup result key) value)`. -/
def mergeStepVal (bv : Option JsonVal) (v : JsonVal) : JsonVal :=
  match bv with
  | some b => mergeVal b v
  | none => v

/-- Keys of an association list, in order. -/
def keysOf {α : Type} (m : List (String × α)) : List String := m.map Prod.fst

mutual

/-- Recursive well-formedness of a JSON value as produced by `json.load`: every
object, at every depth, binds each key at most once (Python dicts cannot hold
duplicate keys).  Arrays and scalars are always well-formed at their own level;
array elements are not traversed because key paths only descend into objects. -/
def wfVal : JsonVal → Bool
  | JsonVal.obj m => wfObj m
  | _ => true

/-- Well-formedness of an object member list: the head key does not recur in
the tail, the head value is well-formed, and the tail is well-formed. -/
def wfObj : List (String × JsonVal) → Bool
  | [] => true
  | (k, v) :: rest =>
    !(rest.any (fun p => p.1 = k)) && wfVal v && wfObj rest

end

/-- Is the value a mapping (Python `isinstance(v, dict)`)? -/
def isObjV : JsonVal → Bool
  | JsonVal.obj _ => true
  | _ => false

/-- Descend a key path (the split form of a dot-notation path) through a JSON
value: the empty path returns the value itself, a nonempty path requires an
object holding the head key and recurses into its value. -/
def getPathV : JsonVal → List String → Option JsonVal
  | v, [] => some v
  | JsonVal.obj m, k :: rest =>
    (match slookup m k with
     | some v => getPathV v rest
     | none => none)
  | _, _ :: _ => none

/-- The fixed set of hook-type names accepted by
`SettingsManager._validate_hooks_config`. -/
def valid_hook_types : List String :=
  ["preToolUse", "postToolUse", "errorHandler", "notification", "stop", "subagentStop"]

/-- One hook entry is valid when it is a mapping that binds both `matcher` and
`command` to string values (extra keys are ignored). -/
def validHookEntry (h : JsonVal) : Bool :=
  match h with
  | JsonVal.obj hd =>
    (match slookup hd "matcher", slookup hd "command" with
     | some (JsonVal.str _), some (JsonVal.str _) => true
     | _, _ => false)
  | _ => false

/-- The validator `SettingsManager._validate_hooks_config`: every top-level key must be a
known hook type, every value a list, and every element a valid hook entry;
the Python loop returns `False` at the first violation, which over the whole
document is exactly the conjunction below. -/
def validate_hooks_config (hooks_config : List (String × JsonVal)) : Bool :=
  hooks_config.all (fun p =>
    valid_hook_types.contains p.1 &&
    (match p.2 with
     | JsonVal.arr hook_list => hook_list.all validHookEntry
     | _ => false))

/-- Contents of a file on disk, abstracted to what `json.load` observes:
either a serialization of some JSON value, or bytes that fail to parse. -/
inductive FileContent where
  | jsonText (v : JsonVal)
  | invalid (raw : String)
deriving Repr

/-- The embedding of `json.load` over a file: succeeds exactly on files whose
contents serialize a JSON value. -/
def parseJsonFile : FileContent → Option JsonVal
  | FileContent.jsonText v => some v
  | FileContent.invalid _ => none

/-- The slice of the file system touched by the backup/restore operations of
`SettingsManager`: the live `settings.json` (absent when `none`), the backup
directory as a name-indexed list ordered newest-first by modification time,
and a logical clock standing in for the wall-clock backup timestamps. -/
structure SettingsState where
  settingsFile : Option FileContent
  backups : List (String × FileContent)
  clock : Nat
deriving Repr

/-- The backup file name `settings_<timestamp>.json` minted at a clock tick. -/
def backupName (clock : Nat) : String :=
  "settings_" ++ toString clock ++ ".json"

/-- The operation `SettingsManager._create_settings_backup` followed by
`_cleanup_old_backups`: copy the current settings file into the backup
directory under a fresh timestamped name, then keep only the 10 most recent
backups by modification time (the new copy is the most recent).  The Python
code raises if the settings file does not exist; `restore_backup` only calls
it under an existence guard, and that unreachable branch is the identity. -/
def create_settings_backup (s : SettingsState) : SettingsState :=
  match s.settingsFile with
  | none => s
  | some c =>
    { settingsFile := some c
      backups := ((backupName s.clock, c) :: s.backups).take 10
      clock := s.clock + 1 }

/-- The operation `SettingsManager.restore_backup`: returns `false` when the named backup
file is missing; otherwise parses it as JSON (a parse failure is caught and
returns `false`), backs up the current settings file if one exists, and copies
the backup over the settings file, returning `true`. -/
def restore_backup (s : SettingsState) (backup_name : String) : Bool × SettingsState :=
  match slookup s.backups backup_name with
  | none => (false, s)
  | some c =>
    match parseJsonFile c with
    | none => (false, s)
    | some _ =>
      let s1 := match s.settingsFile with
        | some _ => create_settings_backup s
        | none => s
      (true, { s1 with settingsFile := some c })

/-- Python truthiness of a JSON-compatible value (`if not command:`): empty
strings, zero, `False`, `None`, empty arrays and empty objects are falsy. -/
def jsonFalsy : JsonVal → Bool
  | JsonVal.obj m => m.isEmpty
  | JsonVal.arr l => l.isEmpty
  | JsonVal.str s => s = ""
  | JsonVal.num n => n = 0
  | JsonVal.bool b => !b
  | JsonVal.null => true

/-- Worker for `tokenize`: scan the characters, accumulating the current
token in reverse; whitespace ends a token, and empty tokens are dropped. -/
def tokenizeChars : List Char → List Char → List String
  | [], acc => if acc.isEmpty then [] else [String.mk acc.reverse]
  | c :: rest, acc =>
    if c.isWhitespace then
      if acc.isEmpty then tokenizeChars rest []
      else String.mk acc.reverse :: tokenizeChars rest []
    else tokenizeChars rest (c :: acc)

/-- Python `str.split()` with no argument: split on runs of whitespace,
discarding empty tokens. -/
def tokenize (s : String) : List String := tokenizeChars s.data []

/-- Interpreter names recognized by `validate_hooks_paths`: when the first
command token is one of these, the script path is the second token. -/
def interpreters : List String := ["python3", "python", "node"]

/-- The slice of the file system consulted by `validate_hooks_paths`:
path existence and regular-file tests. -/
structure PathEnv where
  pathExists : String → Bool
  isFile : String → Bool

/-- The per-entry body of the `validate_hooks_paths` loop.  Returns the error
strings contributed by this entry, or raises (`Except.error`) where the Python
code would raise an uncaught exception: indexing `command_parts[0]` of an
empty token list (a truthy whitespace-only command), or calling `.split()` on
a truthy non-string command value. -/
def checkOneHook (env : PathEnv) (hook_type : String) (i : Nat) (h : JsonVal) :
    Except String (List String) :=
  match h with
  | JsonVal.obj hd =>
    let command := (slookup hd "command").getD (JsonVal.str "")
    if jsonFalsy command then
      Except.ok ["Hook " ++ hook_type ++ "[" ++ toString i ++ "] missing command"]
    else
      match command with
      | JsonVal.str c =>
        match tokenize c with
        | [] => Except.error "IndexError: list index out of range"
        | p0 :: ps =>
          let script_path :=
            match ps with
            | p1 :: _ => if interpreters.contains p0 then p1 else p0
            | [] => p0
          if !(env.pathExists script_path) then
            Except.ok ["Hook script not found: " ++ script_path]
          else if !(env.isFile script_path) then
            Except.ok ["Hook path is not a file: " ++ script_path]
          else
            Except.ok []
      | _ => Except.error "AttributeError: object has no attribute split"
  | _ => Except.ok ["Hook " ++ hook_type ++ "[" ++ toString i ++ "] should be a dict"]

/-- The inner `for i, hook in enumerate(hook_list)` loop: error strings
accumulate across entries, while an uncaught exception aborts the whole
traversal. -/
def checkHookEntries (env : PathEnv) (hook_type : String) (i : Nat) :
    List JsonVal → Except String (List String)
  | [] => Except.ok []
  | h :: rest => do
    let e1 ← checkOneHook env hook_type i h
    let e2 ← checkHookEntries env hook_type (i + 1) rest
    Except.ok (e1 ++ e2)

/-- One iteration of the outer `for hook_type, hook_list` loop: a non-list
value yields a single error string, a list is traversed entry by entry. -/
def checkHookType (env : PathEnv) (p : String × JsonVal) : Except String (List String) :=
  match p.2 with
  | JsonVal.arr hook_list => checkHookEntries env p.1 0 hook_list
  | _ => Except.ok ["Hook type " ++ p.1 ++ " should be a list"]

/-- The outer loop of `validate_hooks_paths` over all hook types. -/
def checkHookTypes (env : PathEnv) : List (String × JsonVal) → Except String (List String)
  | [] => Except.ok []
  | p :: rest => do
    let e1 ← checkHookType env p
    let e2 ← checkHookTypes env rest
    Except.ok (e1 ++ e2)

/-- The check `SettingsManager.validate_hooks_paths`, applied to an already-loaded hooks
configuration: an empty (falsy) configuration is vacuously valid; otherwise
every entry is checked and the result is `(no errors, error list)`.  An
`Except.error` marks an input on which the Python function raises instead of
returning. -/
def validate_hooks_paths (env : PathEnv) (hooks_config : List (String × JsonVal)) :
    Except String (Bool × List String) :=
  if hooks_config.isEmpty then Except.ok (true, [])
  else
    match checkHookTypes env hooks_config with
    | Except.ok errors => Except.ok (errors.isEmpty, errors)
    | Except.error e => Except.error e

/-- The table `TOOL_MAPPING` from `morph_tool_interceptor.py`: native Claude Code tool
names and their MorphLLM equivalents. -/
def TOOL_MAPPING : List (String × String) :=
  [("Read", "mcp__filesystem-with-morph__read_file"),
   ("Write", "mcp__filesystem-with-morph__write_file"),
   ("Edit", "mcp__filesystem-with-morph__edit_file"),
   ("LS", "mcp__filesystem-with-morph__list_directory"),
   ("Glob", "mcp__filesystem-with-morph__search_files"),
   ("MultiEdit", "mcp__filesystem-with-morph__edit_file")]

/-- The table `MORPH_TOOLS_WITH_FALLBACK`: MorphLLM tools that get token-overflow safe
handling. -/
def MORPH_TOOLS_WITH_FALLBACK : List (String × String) :=
  [("mcp__filesystem-with-morph__directory_tree", "safe_directory_tree")]

/-- The constant `AUTO_ACTIVATION_THRESHOLDS["filesystem_operations"]`. -/
def filesystem_operations_threshold : Nat := 5

/-- The constant `AUTO_ACTIVATION_THRESHOLDS["batch_edits"]`. -/
def batch_edits_threshold : Nat := 3

/-- The denylist of subdirectory names treated as token-overflow risks by
`detect_token_overflow_risk`. -/
def problematic_subdirs : List String :=
  [".git", "node_modules", "logs", "__pycache__",
   ".cache", "build", "dist", ".venv", "venv"]

/-- Python `tool_name in TOOL_MAPPING`. -/
def inToolMapping (tool_name : String) : Bool :=
  (slookup TOOL_MAPPING tool_name).isSome

/-- What `os.listdir` observes about one directory: the path is not an
existing directory, listing it raises (permission error), or it lists
entries `(name, is-a-subdirectory)`. -/
inductive Listing where
  | absent
  | denied
  | entries (items : List (String × Bool))

/-- The `tool_input` dictionary of a tool call, restricted to the keys the
interceptor reads: `path`, `file_path` and `edits` (`none` embeds a missing
key; the interceptor only ever takes the length of `edits`). -/
structure ToolInput where
  path : Option String
  file_path : Option String
  edits : Option (List JsonVal)

/-- The process environment and file system as seen by one interceptor
invocation: the flag-bearing environment variables, the flag-like command
line arguments, the backend credential and server registration consulted by
`validate_morph_server`, directory listings and file sizes, and an optional
unexpected internal fault (any exception raised inside the `main` try block,
such as a failing log append or subprocess error, carrying its message). -/
structure Env where
  envMorphEnabled : Bool
  envMorphOnly : Bool
  envMorphFast : Bool
  envNoMorph : Bool
  argvFlags : List String
  morphApiKey : Bool
  morphServerListed : Bool
  dirListing : String → Listing
  fileSize : String → Option Nat
  internalFault : Option String

/-- The flag vocabulary recognized on the command line. -/
def morph_flag_names : List String :=
  ["--morph", "--morphllm", "--morph-only", "--morph-fast", "--no-morph"]

/-- The method `MorphToolInterceptor.parse_flags`: flags derived from the environment
variables, followed by the recognized command-line arguments. -/
def parse_flags (env : Env) : List String :=
  (if env.envMorphEnabled then ["--morph"] else []) ++
  (if env.envMorphOnly then ["--morph-only"] else []) ++
  (if env.envMorphFast then ["--morph-fast"] else []) ++
  (if env.envNoMorph then ["--no-morph"] else []) ++
  env.argvFlags.filter (fun a => morph_flag_names.contains a)

/-- The session counters of `MorphToolInterceptor.__init__` (the start time
is dropped: no claim mentions it and it never influences a decision). -/
structure SessionStats where
  total_operations : Nat
  morph_operations : Nat
  native_operations : Nat
  fallback_operations : Nat
deriving Repr, DecidableEq

/-- The counters of a freshly constructed interceptor instance. -/
def initSessionStats : SessionStats :=
  { total_operations := 0, morph_operations := 0,
    native_operations := 0, fallback_operations := 0 }

/-- The method `MorphToolInterceptor.is_batch_operation`: an `edits` key is present and
holds at least `batch_edits_threshold` edits. -/
def is_batch_operation (tool_input : ToolInput) : Bool :=
  match tool_input.edits with
  | some es => batch_edits_threshold ≤ es.length
  | none => false

/-- The method `MorphToolInterceptor.is_large_directory_operation`: the source returns
`True` unconditionally (every directory operation is assumed to benefit). -/
def is_large_directory_operation (_tool_input : ToolInput) : Bool := true

/-- The method `MorphToolInterceptor.is_performance_critical_operation`: a single-file
read/write/edit whose existing target file exceeds 1 MiB, or a `MultiEdit`
with more than one edit. -/
def is_performance_critical_operation (env : Env) (tool_name : String)
    (tool_input : ToolInput) : Bool :=
  if (tool_name = "Read" ∨ tool_name = "Write" ∨ tool_name = "Edit") ∧
      tool_input.file_path.isSome then
    match tool_input.file_path with
    | some fp =>
      (match env.fileSize fp with
       | some size => if 1024 * 1024 < size then true
                      else if tool_name = "MultiEdit" then 1 < (tool_input.edits.getD []).length
                      else false
       | none => if tool_name = "MultiEdit" then 1 < (tool_input.edits.getD []).length
                 else false)
    | none => false
  else if tool_name = "MultiEdit" then 1 < (tool_input.edits.getD []).length
  else false

/-- The method `MorphToolInterceptor.should_auto_activate`: only tools in the supported
mapping are eligible; activation triggers on the operations-count threshold,
a batch `MultiEdit`, any `LS`, or `--morph-fast` with a performance-critical
call. -/
def should_auto_activate (env : Env) (stats : SessionStats) (tool_name : String)
    (tool_input : ToolInput) (flags : List String) : Bool :=
  if !(inToolMapping tool_name) then false
  else if filesystem_operations_threshold ≤ stats.total_operations then true
  else if tool_name = "MultiEdit" ∧ is_batch_operation tool_input then true
  else if tool_name = "LS" ∧ is_large_directory_operation tool_input then true
  else if flags.contains "--morph-fast" ∧
          is_performance_critical_operation env tool_name tool_input then true
  else false

/-- The method `MorphToolInterceptor.should_intercept`: explicit flags first
(`--no-morph` wins, then `--morph-only`, then `--morph`/`--morphllm`), then
the auto-activation heuristic. -/
def should_intercept (env : Env) (stats : SessionStats) (tool_name : String)
    (tool_input : ToolInput) (flags : List String) : Bool :=
  if flags.contains "--no-morph" then false
  else if flags.contains "--morph-only" then inToolMapping tool_name
  else if flags.contains "--morph" ∨ flags.contains "--morphllm" then inToolMapping tool_name
  else should_auto_activate env stats tool_name tool_input flags

/-- The method `MorphToolInterceptor.validate_morph_server`: the `MORPH_API_KEY`
credential must be set and the `filesystem-with-morph` server must appear in
the registered MCP server list (a subprocess failure reads as not listed). -/
def validate_morph_server (env : Env) : Bool :=
  env.morphApiKey && env.morphServerListed

/-- The method `MorphToolInterceptor.detect_token_overflow_risk`: for a directory-tree
call, flag risk when the target directory has at least 8 subdirectories,
contains a denylisted entry, has at least 15 immediate entries, or cannot be
listed (fail safe); a path that is not an existing directory is no risk. -/
def detect_token_overflow_risk (env : Env) (tool_name : String)
    (tool_input : ToolInput) : Bool :=
  if tool_name = "mcp__filesystem-with-morph__directory_tree" then
    match env.dirListing (tool_input.path.getD "") with
    | Listing.absent => false
    | Listing.denied => true
    | Listing.entries items =>
      let subdirs := (items.filter (fun it => it.2)).length
      let has_problematic := problematic_subdirs.any
        (fun d => items.any (fun it => it.1 = d))
      if 8 ≤ subdirs then true
      else if has_problematic then true
      else if 15 ≤ items.length then true
      else false
  else false

/-- The method `MorphToolInterceptor.should_use_safe_directory_tree`: only tools in
`MORPH_TOOLS_WITH_FALLBACK` qualify, and for the directory-tree tool the
decision is the token-overflow heuristic. -/
def should_use_safe_directory_tree (env : Env) (tool_name : String)
    (tool_input : ToolInput) : Bool :=
  if !(slookup MORPH_TOOLS_WITH_FALLBACK tool_name).isSome then false
  else if tool_name = "mcp__filesystem-with-morph__directory_tree" then
    detect_token_overflow_risk env tool_name tool_input
  else false

/-- The alternative tool input carried by a `block` decision: a direct
passthrough of the original input, the `MultiEdit` remapping (which fixes
`batch_mode` and `atomic_operation` to true), or the `{path}` input of the
chunked `list_directory` call. -/
inductive AltInput where
  | direct (i : ToolInput)
  | batchEdit (file_path : String) (edits : List JsonVal)
  | listDir (path : String)

/-- The method `create_morph_tool_call` composed with `map_tool_parameters`: the target
MorphLLM tool name from `TOOL_MAPPING`, with the input passed through
directly except for `MultiEdit`, which gains the batch markers. -/
def create_morph_tool_call (tool_name : String) (tool_input : ToolInput) :
    String × AltInput :=
  ((slookup TOOL_MAPPING tool_name).getD tool_name,
   if tool_name = "MultiEdit" then
     AltInput.batchEdit (tool_input.file_path.getD "") (tool_input.edits.getD [])
   else AltInput.direct tool_input)

/-- The method `create_chunked_directory_sequence`: the safe alternative is a shallow
`list_directory` call on the same path. -/
def create_chunked_directory_sequence (tool_input : ToolInput) : String × AltInput :=
  ("mcp__filesystem-with-morph__list_directory",
   AltInput.listDir (tool_input.path.getD ""))

/-- The outcome of one interception: allow the native call or block it. -/
inductive ActionKind where
  | allow
  | block
deriving Repr, DecidableEq

/-- The JSON object `process_tool_call` returns, restricted to the fields the
claims mention: the action, the optional `exit_code` (absent on allow), the
alternative call of a block, and the fallback/error annotations of a
fail-open allow. -/
structure Decision where
  action : ActionKind
  exit_code : Option Nat
  reason : Option String
  alternative_tool : Option String
  alternative_input : Option AltInput
  fallback_mode : Bool
  error : Option String

/-- The method `MorphToolInterceptor.process_tool_call`: increment the operation counter,
resolve flags, apply the safety override for risky directory-tree calls,
otherwise intercept per flags/auto-activation (falling back to allow when the
MorphLLM backend is unavailable), otherwise allow the native call.  The
session counters are threaded explicitly; exactly the branch taken bumps its
counter as in the source. -/
def process_tool_call (env : Env) (stats : SessionStats) (tool_name : String)
    (tool_input : ToolInput) : Decision × SessionStats :=
  let st := { stats with total_operations := stats.total_operations + 1 }
  let flags := parse_flags env
  if should_use_safe_directory_tree env tool_name tool_input then
    let chunked := create_chunked_directory_sequence tool_input
    ({ action := ActionKind.block
       exit_code := some 2
       reason := some ("Directory tree for " ++ tool_input.path.getD "" ++
         " likely to exceed token limit. Using chunked discovery instead.")
       alternative_tool := some chunked.1
       alternative_input := some chunked.2
       fallback_mode := false
       error := none },
     { st with morph_operations := st.morph_operations + 1 })
  else if should_intercept env st tool_name tool_input flags then
    if !(validate_morph_server env) then
      ({ action := ActionKind.allow
         exit_code := none
         reason := some ("MorphLLM unavailable, using native " ++ tool_name)
         alternative_tool := none
         alternative_input := none
         fallback_mode := true
         error := none },
       { st with fallback_operations := st.fallback_operations + 1 })
    else
      let morph_call := create_morph_tool_call tool_name tool_input
      ({ action := ActionKind.block
         exit_code := some 2
         reason := some ("Routing " ++ tool_name ++ " to MorphLLM for improved performance")
         alternative_tool := some morph_call.1
         alternative_input := some morph_call.2
         fallback_mode := false
         error := none },
       { st with morph_operations := st.morph_operations + 1 })
  else
    ({ action := ActionKind.allow
       exit_code := none
       reason := none
       alternative_tool := none
       alternative_input := none
       fallback_mode := false
       error := none },
     { st with native_operations := st.native_operations + 1 })

/-- One call in a session: its environment, tool name and tool input. -/
def InterceptCall : Type := Env × String × ToolInput

/-- A sequence of `process_tool_call` invocations on one interceptor
instance, threading the session counters. -/
def runCalls : SessionStats → List InterceptCall → SessionStats
  | st, [] => st
  | st, (env, tool_name, tool_input) :: rest =>
    runCalls (process_tool_call env st tool_name tool_input).2 rest

/-- The single command-line argument of the hook process, after
`json.loads`: absent, malformed JSON (`json.loads` raises), or a parsed
object from which `tool_name` and `tool_input` are extracted with defaults. -/
inductive HookArg where
  | malformed
  | parsed (tool_name : String) (tool_input : ToolInput)

/-- What one run of the hook process observably produces: the `action` field
of the printed JSON object (`none` for the no-argument error object, which
has no action), its error annotation, its fallback marker, and the process
exit code. -/
structure MainOutcome where
  action : Option ActionKind
  errorField : Option String
  fallback_mode : Bool
  exitCode : Nat
deriving DecidableEq

/-- The function `main` of `morph_tool_interceptor.py`: with no argument, print an error
object and exit 1; otherwise run the body under the catch-all `except`: a
`json.loads` failure or any unexpected internal fault is converted into an
allow decision with an error annotation and exit code 0 (fail open); a normal
decision is printed and the process exits with its `exit_code`, defaulting
to 0 when the decision carries none. -/
def mainRun (env : Env) (arg : Option HookArg) : MainOutcome :=
  match arg with
  | none =>
    { action := none
      errorField := some "No tool call data provided"
      fallback_mode := false
      exitCode := 1 }
  | some HookArg.malformed =>
    { action := some ActionKind.allow
      errorField := some "Expecting value: line 1 column 1 (char 0)"
      fallback_mode := true
      exitCode := 0 }
  | some (HookArg.parsed tool_name tool_input) =>
    match env.internalFault with
    | some msg =>
      { action := some ActionKind.allow
        errorField := some msg
        fallback_mode := true
        exitCode := 0 }
    | none =>
      let result := (process_tool_call env initSessionStats tool_name tool_input).1
      { action := some result.action
        errorField := result.error
        fallback_mode := result.fallback_mode
        exitCode := result.exit_code.getD 0 }

/-- Variant of `should_auto_activate` with the operations-count branch
deleted, used only to state that the branch is dead in every run reached
through the process entry point (claim C10). -/
def should_auto_activate_noOps (env : Env) (_stats : SessionStats) (tool_name : String)
    (tool_input : ToolInput) (flags : List String) : Bool :=
  if !(inToolMapping tool_name) then false
  else if tool_name = "MultiEdit" ∧ is_batch_operation tool_input then true
  else if tool_name = "LS" ∧ is_large_directory_operation tool_input then true
  else if flags.contains "--morph-fast" ∧
          is_performance_critical_operation env tool_name tool_input then true
  else false

/-- Variant: `should_intercept` rebuilt on top of `should_auto_activate_noOps`. -/
def should_intercept_noOps (env : Env) (stats : SessionStats) (tool_name : String)
    (tool_input : ToolInput) (flags : List String) : Bool :=
  if flags.contains "--no-morph" then false
  else if flags.contains "--morph-only" then inToolMapping tool_name
  else if flags.contains "--morph" ∨ flags.contains "--morphllm" then inToolMapping tool_name
  else should_auto_activate_noOps env stats tool_name tool_input flags

/-- Variant: `process_tool_call` rebuilt on top of `should_intercept_noOps`. -/
def process_tool_call_noOps (env : Env) (stats : SessionStats) (tool_name : String)
    (tool_input : ToolInput) : Decision × SessionStats :=
  let st := { stats with total_operations := stats.total_operations + 1 }
  let flags := parse_flags env
  if should_use_safe_directory_tree env tool_name tool_input then
    let chunked := create_chunked_directory_sequence tool_input
    ({ action := ActionKind.block
       exit_code := some 2
       reason := some ("Directory tree for " ++ tool_input.path.getD "" ++
         " likely to exceed token limit. Using chunked discovery instead.")
       alternative_tool := some chunked.1
       alternative_input := some chunked.2
       fallback_mode := false
       error := none },
     { st with morph_operations := st.morph_operations + 1 })
  else if should_intercept_noOps env st tool_name tool_input flags then
    if !(validate_morph_server env) then
      ({ action := ActionKind.allow
         exit_code := none
         reason := some ("MorphLLM unavailable, using native " ++ tool_name)
         alternative_tool := none
         alternative_input := none
         fallback_mode := true
         error := none },
       { st with fallback_operations := st.fallback_operations + 1 })
    else
      let morph_call := create_morph_tool_call tool_name tool_input
      ({ action := ActionKind.block
         exit_code := some 2
         reason := some ("Routing " ++ tool_name ++ " to MorphLLM for improved performance")
         alternative_tool := some morph_call.1
         alternative_input := some morph_call.2
         fallback_mode := false
         error := none },
       { st with morph_operations := st.morph_operations + 1 })
  else
    ({ action := ActionKind.allow
       exit_code := none
       reason := none
       alternative_tool := none
       alternative_input := none
       fallback_mode := false
       error := none },
     { st with native_operations := st.native_operations + 1 })

/-- Variant: `mainRun` rebuilt on top of `process_tool_call_noOps`. -/
def mainRun_noOps (env : Env) (arg : Option HookArg) : MainOutcome :=
  match arg with
  | none =>
    { action := none
      errorField := some "No tool call data provided"
      fallback_mode := false
      exitCode := 1 }
  | some HookArg.malformed =>
    { action := some ActionKind.allow
      errorField := some "Expecting value: line 1 column 1 (char 0)"
      fallback_mode := true
      exitCode := 0 }
  | some (HookArg.parsed tool_name tool_input) =>
    match env.internalFault with
    | some msg =>
      { action := some ActionKind.allow
        errorField := some msg
        fallback_mode := true
        exitCode := 0 }
    | none =>
      let result := (process_tool_call_noOps env initSessionStats tool_name tool_input).1
      { action := some result.action
        errorField := result.error
        fallback_mode := result.fallback_mode
        exitCode := result.exit_code.getD 0 }

/-! ### Lemmas about the deep-merge engine -/

theorem slookup_assocSet {α : Type} (m : List (String × α)) (key q : String) (val : α) :
    slookup (assocSet m key val) q = if key = q then some val else slookup m q := by
  induction m with
  | nil => by_cases h : key = q <;> simp [assocSet, slookup, h]
  | cons p rest ih =>
    obtain ⟨k, v⟩ := p
    by_cases hk : k = key
    · subst hk
      by_cases hq : k = q <;> simp [assocSet, slookup, hq]
    · by_cases hq : k = q
      · subst hq
        have h2 : ¬ (key = k) := fun h => hk h.symm
        simp [assocSet, slookup, hk, h2]
      · simp [assocSet, slookup, hk, hq, ih]

theorem deep_merge_nil (r : List (String × JsonVal)) : deep_merge r [] = r := rfl

theorem deep_merge_cons (r : List (String × JsonVal)) (k : String) (v : JsonVal)
    (rest : List (String × JsonVal)) :
    deep_merge r ((k, v) :: rest) =
      deep_merge (assocSet r k (mergeStepVal (slookup r k) v)) rest := rfl

theorem slookup_deep_merge_not_mem (overlay : List (String × JsonVal)) :
    ∀ (r : List (String × JsonVal)) (k : String), k ∉ keysOf overlay →
      slookup (deep_merge r overlay) k = slookup r k := by
  induction overlay with
  | nil => intro r k _; rfl
  | cons p rest ih =>
    intro r k hk
    obtain ⟨hk2, hv⟩ := p
    simp only [keysOf, List.map_cons, List.mem_cons, not_or] at hk
    rw [deep_merge_cons, ih _ _ (by simpa [keysOf] using hk.2), slookup_assocSet,
      if_neg (Ne.symm hk.1)]

theorem slookup_deep_merge_mem (overlay : List (String × JsonVal)) :
    ∀ (r : List (String × JsonVal)) (k : String) (v : JsonVal),
      (keysOf overlay).Nodup → (k, v) ∈ overlay →
      slookup (deep_merge r overlay) k = some (mergeStepVal (slookup r k) v) := by
  induction overlay with
  | nil => intro r k v _ h; simp at h
  | cons p rest ih =>
    intro r k v hnd hmem
    obtain ⟨hk, hv⟩ := p
    simp only [keysOf, List.map_cons, List.nodup_cons] at hnd
    rcases List.mem_cons.mp hmem with heq | hmem2
    · obtain ⟨hk', hv'⟩ := Prod.mk.injEq .. ▸ heq
      subst hk'
      subst hv'
      rw [deep_merge_cons,
        slookup_deep_merge_not_mem rest _ _ (by simpa [keysOf] using hnd.1),
        slookup_assocSet, if_pos rfl]
    · have hkne : hk ≠ k := by
        intro h
        subst h
        exact hnd.1 (by simpa [keysOf] using List.mem_map_of_mem Prod.fst hmem2)
      rw [deep_merge_cons, ih _ _ _ hnd.2 hmem2, slookup_assocSet, if_neg hkne]

/-- C1: for every pair of dictionaries, each overlay key maps in the merged
result to the recursive merge of the two values when both are mappings, and to
the overlay value otherwise; keys missing from the overlay keep their base
binding.  The embedding is purely functional, so `base` and `overlay` are not
mutated and the returned values cannot alias them. -/
theorem deep_merge_spec (base overlay : List (String × JsonVal))
    (hnodup : (keysOf overlay).Nodup) :
    (∀ k v, (k, v) ∈ overlay →
      slookup (deep_merge base overlay) k = some (mergeStepVal (slookup base k) v)) ∧
    (∀ k b o, (k, JsonVal.obj o) ∈ overlay → slookup base k = some (JsonVal.obj b) →
      slookup (deep_merge base overlay) k = some (JsonVal.obj (deep_merge b o))) ∧
    (∀ k v, (k, v) ∈ overlay →
      (isObjV v = false ∨ ∀ b, slookup base k ≠ some (JsonVal.obj b)) →
      slookup (deep_merge base overlay) k = some v) ∧
    (∀ k, k ∉ keysOf overlay →
      slookup (deep_merge base overlay) k = slookup base k) := by
  refine ⟨?_, ?_, ?_, ?_⟩
  · intro k v hmem
    exact slookup_deep_merge_mem overlay base k v hnodup hmem
  · intro k b o hmem hbase
    rw [slookup_deep_merge_mem overlay base k _ hnodup hmem, hbase]
    rfl
  · intro k v hmem hcase
    rw [slookup_deep_merge_mem overlay base k v hnodup hmem]
    rcases hcase with hnotobj | hbase
    · cases hb : slookup base k with
      | none => rfl
      | some b =>
        cases b <;> cases v <;> simp_all [mergeStepVal, mergeVal, isObjV]
    · cases hb : slookup base k with
      | none => rfl
      | some b =>
        cases b with
        | obj m => exact absurd hb (hbase m)
        | arr l => cases v <;> rfl
        | str s => cases v <;> rfl
        | num n => cases v <;> rfl
        | bool b => cases v <;> rfl
        | null => cases v <;> rfl
  · intro k hk
    exact slookup_deep_merge_not_mem overlay base k hk

/-- Witness for C1 at concrete inputs: base `{a: {x: 1, y: 2}, s: 0}`,
overlay `{a: {y: 7}, t: 3}`. -/
theorem deep_merge_spec_witness :
    ([ "a", "t" ] : List String).Nodup ∧
    slookup
      (deep_merge
        [("a", JsonVal.obj [("x", JsonVal.num 1), ("y", JsonVal.num 2)]),
         ("s", JsonVal.num 0)]
        [("a", JsonVal.obj [("y", JsonVal.num 7)]), ("t", JsonVal.num 3)])
      "a" =
      some (JsonVal.obj (deep_merge [("x", JsonVal.num 1), ("y", JsonVal.num 2)]
        [("y", JsonVal.num 7)])) := by
  constructor
  · decide
  · exact (deep_merge_spec
      [("a", JsonVal.obj [("x", JsonVal.num 1), ("y", JsonVal.num 2)]),
       ("s", JsonVal.num 0)]
      [("a", JsonVal.obj [("y", JsonVal.num 7)]), ("t", JsonVal.num 3)]
      (by simp [keysOf])).2.1 "a"
      [("x", JsonVal.num 1), ("y", JsonVal.num 2)] [("y", JsonVal.num 7)]
      (by simp) rfl

theorem slookup_eq_none {α : Type} (m : List (String × α)) (k : String)
    (h : k ∉ keysOf m) : slookup m k = none := by
  induction m with
  | nil => rfl
  | cons p rest ih =>
    simp only [keysOf, List.map_cons, List.mem_cons, not_or] at h
    simp [slookup, Ne.symm h.1, ih (by simpa [keysOf] using h.2)]

theorem assocSet_not_mem {α : Type} (m : List (String × α)) (k : String) (v : α)
    (h : k ∉ keysOf m) : assocSet m k v = m ++ [(k, v)] := by
  induction m with
  | nil => rfl
  | cons p rest ih =>
    simp only [keysOf, List.map_cons, List.mem_cons, not_or] at h
    simp [assocSet, Ne.symm h.1, ih (by simpa [keysOf] using h.2)]

theorem deep_merge_disjoint (b : List (String × JsonVal)) :
    ∀ (r : List (String × JsonVal)), (keysOf b).Nodup →
      (∀ k, k ∈ keysOf b → k ∉ keysOf r) → deep_merge r b = r ++ b := by
  induction b with
  | nil => intro r _ _; simp [deep_merge_nil]
  | cons p rest ih =>
    intro r hnd hdisj
    obtain ⟨k, v⟩ := p
    simp only [keysOf, List.map_cons, List.nodup_cons] at hnd
    have hk : k ∉ keysOf r := hdisj k (by simp [keysOf])
    rw [deep_merge_cons, slookup_eq_none r k hk]
    simp only [mergeStepVal]
    rw [assocSet_not_mem r k v hk, ih (r ++ [(k, v)]) hnd.2 ?_]
    · simp
    · intro k2 hk2
      have hmem : k2 ∈ keysOf ((k, v) :: rest) := by
        simp only [keysOf, List.map_cons, List.mem_cons]
        exact Or.inr (by simpa [keysOf] using hk2)
      simp only [keysOf, List.map_append, List.mem_append, not_or,
        List.map_cons, List.map_nil, List.mem_singleton]
      constructor
      · exact fun hr => hdisj k2 hmem (by simpa [keysOf] using hr)
      · intro heq
        subst heq
        exact hnd.1 (by simpa [keysOf] using hk2)

theorem wfObj_cons (k : String) (v : JsonVal) (rest : List (String × JsonVal)) :
    wfObj ((k, v) :: rest) =
      (!(rest.any (fun p => p.1 = k)) && wfVal v && wfObj rest) := rfl

theorem wfObj_nodup (m : List (String × JsonVal)) (h : wfObj m = true) :
    (keysOf m).Nodup := by
  induction m with
  | nil => simp [keysOf]
  | cons p rest ih =>
    obtain ⟨k, v⟩ := p
    rw [wfObj_cons] at h
    simp only [Bool.and_eq_true, Bool.not_eq_true', List.any_eq_false] at h
    simp only [keysOf, List.map_cons, List.nodup_cons]
    refine ⟨?_, ih h.2⟩
    intro hmem
    obtain ⟨q, hq, hq2⟩ := List.mem_map.mp hmem
    exact absurd (by simpa using hq2) (by simpa using h.1.1 q hq)

theorem wf_slookup (m : List (String × JsonVal)) (k : String) (v : JsonVal)
    (hwf : wfObj m = true) (h : slookup m k = some v) : wfVal v = true := by
  induction m with
  | nil => simp [slookup] at h
  | cons p rest ih =>
    obtain ⟨k2, v2⟩ := p
    rw [wfObj_cons] at hwf
    simp only [Bool.and_eq_true] at hwf
    simp only [slookup] at h
    by_cases hk : k2 = k
    · rw [if_pos hk] at h
      exact (Option.some.injEq .. ▸ h) ▸ hwf.1.2
    · rw [if_neg hk] at h
      exact ih hwf.2 h

theorem slookup_mem {α : Type} (m : List (String × α)) (k : String) (v : α)
    (h : slookup m k = some v) : (k, v) ∈ m := by
  induction m with
  | nil => simp [slookup] at h
  | cons p rest ih =>
    obtain ⟨k2, v2⟩ := p
    simp only [slookup] at h
    by_cases hk : k2 = k
    · rw [if_pos hk] at h
      subst hk
      simp [Option.some.injEq .. ▸ h]
    · exact List.mem_cons_of_mem _ (ih (by rwa [if_neg hk] at h))

theorem deep_merge_scalar_path (p : List String) :
    ∀ (base overlay : List (String × JsonVal)) (v : JsonVal),
      wfObj overlay = true → isObjV v = false →
      getPathV (JsonVal.obj overlay) p = some v →
      getPathV (JsonVal.obj (deep_merge base overlay)) p = some v := by
  induction p with
  | nil =>
    intro base overlay v _ hscalar hpath
    simp only [getPathV, Option.some.injEq] at hpath
    rw [← hpath] at hscalar
    simp [isObjV] at hscalar
  | cons k rest ih =>
    intro base overlay v hwf hscalar hpath
    simp only [getPathV] at hpath
    cases hov : slookup overlay k with
    | none => rw [hov] at hpath; simp at hpath
    | some ov =>
      rw [hov] at hpath
      have hmem := slookup_mem overlay k ov hov
      have hmerged := slookup_deep_merge_mem overlay base k ov (wfObj_nodup overlay hwf) hmem
      simp only [getPathV, hmerged]
      cases hb : slookup base k with
      | none => simpa [mergeStepVal] using hpath
      | some b =>
        cases b with
        | obj bb =>
          cases ov with
          | obj oo =>
            simp only [mergeStepVal, mergeVal]
            have hwfo : wfObj oo = true := by
              have := wf_slookup overlay k (JsonVal.obj oo) hwf hov
              simpa [wfVal] using this
            exact ih bb oo v hwfo hscalar hpath
          | arr l => simpa [mergeStepVal, mergeVal] using hpath
          | str s => simpa [mergeStepVal, mergeVal] using hpath
          | num n => simpa [mergeStepVal, mergeVal] using hpath
          | bool b2 => simpa [mergeStepVal, mergeVal] using hpath
          | null => simpa [mergeStepVal, mergeVal] using hpath
        | arr l => cases ov <;> simpa [mergeStepVal, mergeVal] using hpath
        | str s => cases ov <;> simpa [mergeStepVal, mergeVal] using hpath
        | num n => cases ov <;> simpa [mergeStepVal, mergeVal] using hpath
        | bool b2 => cases ov <;> simpa [mergeStepVal, mergeVal] using hpath
        | null => cases ov <;> simpa [mergeStepVal, mergeVal] using hpath

/-- C2: merging an empty overlay returns the base unchanged; merging into an
empty base returns the overlay unchanged (Python dicts have unique keys); and
wherever the overlay holds a scalar (non-mapping) value at a key path, the
merged result holds exactly that overlay value at that path. -/
theorem deep_merge_identities_and_scalar_wins
    (a b : List (String × JsonVal)) (hb : (keysOf b).Nodup)
    (base overlay : List (String × JsonVal)) (p : List String) (v : JsonVal)
    (hwf : wfObj overlay = true) (hscalar : isObjV v = false)
    (hpath : getPathV (JsonVal.obj overlay) p = some v) :
    deep_merge a [] = a ∧ deep_merge [] b = b ∧
    getPathV (JsonVal.obj (deep_merge base overlay)) p = some v := by
  refine ⟨deep_merge_nil a, ?_, ?_⟩
  · have := deep_merge_disjoint b [] hb (by simp [keysOf])
    simpa using this
  · exact deep_merge_scalar_path p base overlay v hwf hscalar hpath

/-- Witness for C2 at concrete inputs: the identities at `{x: 1}` and
`{y: 2}`, and the overlay scalar `9` at path `a.x` winning over the base
value `1`. -/
theorem deep_merge_identities_and_scalar_wins_witness :
    deep_merge [("x", JsonVal.num 1)] [] = [("x", JsonVal.num 1)] ∧
    deep_merge [] [("y", JsonVal.num 2)] = [("y", JsonVal.num 2)] ∧
    getPathV
      (JsonVal.obj (deep_merge
        [("a", JsonVal.obj [("x", JsonVal.num 1)]), ("s", JsonVal.num 0)]
        [("a", JsonVal.obj [("x", JsonVal.num 9)])]))
      ["a", "x"] = some (JsonVal.num 9) :=
  deep_merge_identities_and_scalar_wins
    [("x", JsonVal.num 1)] [("y", JsonVal.num 2)] (by simp [keysOf])
    [("a", JsonVal.obj [("x", JsonVal.num 1)]), ("s", JsonVal.num 0)]
    [("a", JsonVal.obj [("x", JsonVal.num 9)])]
    ["a", "x"] (JsonVal.num 9) rfl rfl rfl

/-! ### Backup restore -/

/-- C3: restoring from a missing backup, or from a backup whose contents are
not valid JSON, returns `false` without an exception and leaves the whole
settings state — in particular the live settings file — exactly as it was; a
restore proceeds only once the named backup parses as JSON, and then the
previous live settings content is itself backed up (under the fresh
timestamped name) before the settings file is overwritten with the backup
content. -/
theorem restore_backup_spec (s : SettingsState) (name : String) :
    (slookup s.backups name = none → restore_backup s name = (false, s)) ∧
    (∀ c, slookup s.backups name = some c → parseJsonFile c = none →
      restore_backup s name = (false, s)) ∧
    (∀ c j cur, slookup s.backups name = some c → parseJsonFile c = some j →
      s.settingsFile = some cur →
      (restore_backup s name).1 = true ∧
      (restore_backup s name).2.settingsFile = some c ∧
      (backupName s.clock, cur) ∈ (restore_backup s name).2.backups) := by
  refine ⟨?_, ?_, ?_⟩
  · intro h
    simp [restore_backup, h]
  · intro c hc hp
    simp [restore_backup, hc, hp]
  · intro c j cur hc hp hcur
    simp only [restore_backup, hc, hp, hcur]
    refine ⟨trivial, trivial, ?_⟩
    simp only [create_settings_backup, hcur, List.take_succ_cons]
    exact List.mem_cons_self _ _

/-- Witness for C3 at a concrete state: one valid backup `b1`, a live
settings file, and a missing name `nope`. -/
theorem restore_backup_spec_witness :
    (restore_backup
      { settingsFile := some (FileContent.jsonText (JsonVal.num 1))
        backups := [("b1", FileContent.jsonText (JsonVal.num 2))]
        clock := 0 } "nope" =
      (false,
       { settingsFile := some (FileContent.jsonText (JsonVal.num 1))
         backups := [("b1", FileContent.jsonText (JsonVal.num 2))]
         clock := 0 })) ∧
    (restore_backup
      { settingsFile := some (FileContent.jsonText (JsonVal.num 1))
        backups := [("b1", FileContent.jsonText (JsonVal.num 2))]
        clock := 0 } "b1").1 = true ∧
    (restore_backup
      { settingsFile := some (FileContent.jsonText (JsonVal.num 1))
        backups := [("b1", FileContent.jsonText (JsonVal.num 2))]
        clock := 0 } "b1").2.settingsFile =
      some (FileContent.jsonText (JsonVal.num 2)) ∧
    (backupName 0, FileContent.jsonText (JsonVal.num 1)) ∈
      (restore_backup
        { settingsFile := some (FileContent.jsonText (JsonVal.num 1))
          backups := [("b1", FileContent.jsonText (JsonVal.num 2))]
          clock := 0 } "b1").2.backups := by
  refine ⟨?_, ?_⟩
  · exact (restore_backup_spec
      { settingsFile := some (FileContent.jsonText (JsonVal.num 1))
        backups := [("b1", FileContent.jsonText (JsonVal.num 2))]
        clock := 0 } "nope").1 rfl
  · exact (restore_backup_spec
      { settingsFile := some (FileContent.jsonText (JsonVal.num 1))
        backups := [("b1", FileContent.jsonText (JsonVal.num 2))]
        clock := 0 } "b1").2.2
      (FileContent.jsonText (JsonVal.num 2)) (JsonVal.num 2)
      (FileContent.jsonText (JsonVal.num 1)) rfl rfl rfl

/-! ### Hooks configuration validation -/

theorem validHookEntry_iff (h : JsonVal) :
    validHookEntry h = true ↔
      ∃ hd m c, h = JsonVal.obj hd ∧
        slookup hd "matcher" = some (JsonVal.str m) ∧
        slookup hd "command" = some (JsonVal.str c) := by
  cases h with
  | obj hd =>
    constructor
    · intro hv
      simp only [validHookEntry] at hv
      split at hv
      · next m c heq1 heq2 => exact ⟨hd, m, c, rfl, heq1, heq2⟩
      · simp at hv
    · rintro ⟨hd2, m, c, heq, hm, hc⟩
      cases heq
      simp [validHookEntry, hm, hc]
  | arr l =>
    simp only [validHookEntry, Bool.false_eq_true, false_iff]
    rintro ⟨hd, m, c, heq, -, -⟩
    simp at heq
  | str s =>
    simp only [validHookEntry, Bool.false_eq_true, false_iff]
    rintro ⟨hd, m, c, heq, -, -⟩
    simp at heq
  | num n =>
    simp only [validHookEntry, Bool.false_eq_true, false_iff]
    rintro ⟨hd, m, c, heq, -, -⟩
    simp at heq
  | bool b =>
    simp only [validHookEntry, Bool.false_eq_true, false_iff]
    rintro ⟨hd, m, c, heq, -, -⟩
    simp at heq
  | null =>
    simp only [validHookEntry, Bool.false_eq_true, false_iff]
    rintro ⟨hd, m, c, heq, -, -⟩
    simp at heq

/-- C4: the hooks-configuration validator accepts a document exactly when
every top-level key is one of the six allowed hook types, every top-level
value is a sequence, and every element of each sequence is a mapping binding
both `matcher` and `command` to strings (extra keys ignored); consequently any
single violation anywhere makes it reject the whole document. -/
theorem validate_hooks_config_spec (hooks_config : List (String × JsonVal)) :
    validate_hooks_config hooks_config = true ↔
      ∀ p ∈ hooks_config, p.1 ∈ valid_hook_types ∧
        ∃ hook_list, p.2 = JsonVal.arr hook_list ∧
          ∀ h ∈ hook_list, ∃ hd m c, h = JsonVal.obj hd ∧
            slookup hd "matcher" = some (JsonVal.str m) ∧
            slookup hd "command" = some (JsonVal.str c) := by
  simp only [validate_hooks_config, List.all_eq_true]
  constructor
  · intro hall p hp
    have hthis := hall p hp
    simp only [Bool.and_eq_true] at hthis
    refine ⟨List.elem_iff.mp hthis.1, ?_⟩
    cases hv : p.2 with
    | arr hook_list =>
      rw [hv] at hthis
      refine ⟨hook_list, rfl, ?_⟩
      intro h hh
      have := List.all_eq_true.mp hthis.2 h hh
      exact (validHookEntry_iff h).mp this
    | obj m => rw [hv] at hthis; simp at hthis
    | str s => rw [hv] at hthis; simp at hthis
    | num n => rw [hv] at hthis; simp at hthis
    | bool b => rw [hv] at hthis; simp at hthis
    | null => rw [hv] at hthis; simp at hthis
  · intro hall p hp
    obtain ⟨h1, hook_list, heq, h3⟩ := hall p hp
    simp only [Bool.and_eq_true, heq]
    refine ⟨List.elem_iff.mpr h1, ?_⟩
    exact List.all_eq_true.mpr fun h hh => (validHookEntry_iff h).mpr (h3 h hh)

/-- Witness for C4: the spec example `{preToolUse: [{matcher, command}]}`
passes and `{badType: []}` fails. -/
theorem validate_hooks_config_spec_witness :
    validate_hooks_config
      [("preToolUse", JsonVal.arr
        [JsonVal.obj [("matcher", JsonVal.str "^Read$"),
                      ("command", JsonVal.str "run.sh")]])] = true ∧
    validate_hooks_config [("badType", JsonVal.arr [])] = false := by
  constructor
  · exact (validate_hooks_config_spec _).mpr (by
      intro p hp
      simp only [List.mem_singleton] at hp
      subst hp
      refine ⟨by simp [valid_hook_types], _, rfl, ?_⟩
      intro h hh
      simp only [List.mem_singleton] at hh
      subst hh
      exact ⟨_, "^Read$", "run.sh", rfl, rfl, rfl⟩)
  · rfl

/-! ### Tool-call interceptor -/

/-- C5: a directory-tree call whose target directory contains a denylisted
entry (such as `node_modules`) is blocked with the safer `list_directory`
tool as the alternative call, for every flag set containing `--no-morph` (and
indeed any flag set: the safety override is evaluated before, and
independently of, the flag-based decision, whose first rule would otherwise
make `--no-morph` suppress every interception). -/
theorem safety_override_spec (env : Env) (st : SessionStats) (ti : ToolInput)
    (items : List (String × Bool)) (d : String)
    (_hflag : "--no-morph" ∈ parse_flags env)
    (hlist : env.dirListing (ti.path.getD "") = Listing.entries items)
    (hd : d ∈ problematic_subdirs) (hdin : d ∈ items.map Prod.fst) :
    ((process_tool_call env st "mcp__filesystem-with-morph__directory_tree" ti).1).action
      = ActionKind.block ∧
    ((process_tool_call env st "mcp__filesystem-with-morph__directory_tree" ti).1).alternative_tool
      = some "mcp__filesystem-with-morph__list_directory" := by
  have hprob : problematic_subdirs.any
      (fun d2 => items.any (fun it => it.1 = d2)) = true := by
    rw [List.any_eq_true]
    refine ⟨d, hd, ?_⟩
    rw [List.any_eq_true]
    obtain ⟨it, hit, hit2⟩ := List.mem_map.mp hdin
    exact ⟨it, hit, by simp [hit2]⟩
  have hrisk : detect_token_overflow_risk env
      "mcp__filesystem-with-morph__directory_tree" ti = true := by
    simp only [detect_token_overflow_risk, if_pos rfl, hlist]
    by_cases h8 : 8 ≤ (items.filter (fun it => it.2)).length
    · simp [h8]
    · simp [h8, hprob]
  have hsafe : should_use_safe_directory_tree env
      "mcp__filesystem-with-morph__directory_tree" ti = true := by
    simp [should_use_safe_directory_tree, MORPH_TOOLS_WITH_FALLBACK, slookup, hrisk]
  constructor <;>
    simp [process_tool_call, hsafe, create_chunked_directory_sequence]

/-- Witness for C5: `--no-morph` via the `NO_MORPH` environment variable and
a directory whose immediate children include `node_modules`. -/
theorem safety_override_spec_witness :
    ("--no-morph" ∈ parse_flags
      ⟨false, false, false, true, [], false, false,
       fun _ => Listing.entries [("node_modules", true), ("src", true)],
       fun _ => none, none⟩) ∧
    ((process_tool_call
      ⟨false, false, false, true, [], false, false,
       fun _ => Listing.entries [("node_modules", true), ("src", true)],
       fun _ => none, none⟩
      initSessionStats "mcp__filesystem-with-morph__directory_tree"
      ⟨some "/repo", none, none⟩).1).action = ActionKind.block ∧
    ((process_tool_call
      ⟨false, false, false, true, [], false, false,
       fun _ => Listing.entries [("node_modules", true), ("src", true)],
       fun _ => none, none⟩
      initSessionStats "mcp__filesystem-with-morph__directory_tree"
      ⟨some "/repo", none, none⟩).1).alternative_tool =
      some "mcp__filesystem-with-morph__list_directory" := by
  refine ⟨by simp [parse_flags], ?_⟩
  exact safety_override_spec
    ⟨false, false, false, true, [], false, false,
     fun _ => Listing.entries [("node_modules", true), ("src", true)],
     fun _ => none, none⟩
    initSessionStats ⟨some "/repo", none, none⟩
    [("node_modules", true), ("src", true)] "node_modules"
    (by simp [parse_flags]) rfl (by simp [problematic_subdirs]) (by simp)

theorem process_tool_call_counters (env : Env) (st : SessionStats)
    (tool_name : String) (tool_input : ToolInput) :
    ((process_tool_call env st tool_name tool_input).2).total_operations
      = st.total_operations + 1 ∧
    ((((process_tool_call env st tool_name tool_input).2).native_operations
        = st.native_operations + 1 ∧
      ((process_tool_call env st tool_name tool_input).2).morph_operations
        = st.morph_operations ∧
      ((process_tool_call env st tool_name tool_input).2).fallback_operations
        = st.fallback_operations) ∨
     (((process_tool_call env st tool_name tool_input).2).morph_operations
        = st.morph_operations + 1 ∧
      ((process_tool_call env st tool_name tool_input).2).native_operations
        = st.native_operations ∧
      ((process_tool_call env st tool_name tool_input).2).fallback_operations
        = st.fallback_operations) ∨
     (((process_tool_call env st tool_name tool_input).2).fallback_operations
        = st.fallback_operations + 1 ∧
      ((process_tool_call env st tool_name tool_input).2).native_operations
        = st.native_operations ∧
      ((process_tool_call env st tool_name tool_input).2).morph_operations
        = st.morph_operations)) := by
  simp only [process_tool_call]
  split
  · exact ⟨rfl, Or.inr (Or.inl ⟨rfl, rfl, rfl⟩)⟩
  · split
    · split
      · exact ⟨rfl, Or.inr (Or.inr ⟨rfl, rfl, rfl⟩)⟩
      · exact ⟨rfl, Or.inr (Or.inl ⟨rfl, rfl, rfl⟩)⟩
    · exact ⟨rfl, Or.inl ⟨rfl, rfl, rfl⟩⟩

theorem runCalls_sum (calls : List InterceptCall) :
    ∀ st : SessionStats,
      st.native_operations + st.morph_operations + st.fallback_operations
        = st.total_operations →
      (runCalls st calls).native_operations + (runCalls st calls).morph_operations
        + (runCalls st calls).fallback_operations
        = (runCalls st calls).total_operations := by
  induction calls with
  | nil => intro st h; exact h
  | cons call rest ih =>
    intro st h
    obtain ⟨env, tool_name, tool_input⟩ := call
    have hc := process_tool_call_counters env st tool_name tool_input
    refine ih _ ?_
    rcases hc.2 with ⟨h1, h2, h3⟩ | ⟨h1, h2, h3⟩ | ⟨h1, h2, h3⟩ <;>
      rw [h1, h2, h3, hc.1] <;> omega

/-- C6: every call to `process_tool_call` increments `total_operations` by
exactly one and exactly one of `native_operations`, `morph_operations`,
`fallback_operations` by exactly one; hence after any sequence of calls on
one interceptor instance (counters starting at zero) the three counters sum
to `total_operations`. -/
theorem session_counters_spec :
    (∀ (env : Env) (st : SessionStats) (tool_name : String) (tool_input : ToolInput),
      ((process_tool_call env st tool_name tool_input).2).total_operations
        = st.total_operations + 1 ∧
      ((((process_tool_call env st tool_name tool_input).2).native_operations
          = st.native_operations + 1 ∧
        ((process_tool_call env st tool_name tool_input).2).morph_operations
          = st.morph_operations ∧
        ((process_tool_call env st tool_name tool_input).2).fallback_operations
          = st.fallback_operations) ∨
       (((process_tool_call env st tool_name tool_input).2).morph_operations
          = st.morph_operations + 1 ∧
        ((process_tool_call env st tool_name tool_input).2).native_operations
          = st.native_operations ∧
        ((process_tool_call env st tool_name tool_input).2).fallback_operations
          = st.fallback_operations) ∨
       (((process_tool_call env st tool_name tool_input).2).fallback_operations
          = st.fallback_operations + 1 ∧
        ((process_tool_call env st tool_name tool_input).2).native_operations
          = st.native_operations ∧
        ((process_tool_call env st tool_name tool_input).2).morph_operations
          = st.morph_operations))) ∧
    (∀ calls : List InterceptCall,
      (runCalls initSessionStats calls).native_operations
        + (runCalls initSessionStats calls).morph_operations
        + (runCalls initSessionStats calls).fallback_operations
        = (runCalls initSessionStats calls).total_operations) :=
  ⟨process_tool_call_counters,
   fun calls => runCalls_sum calls initSessionStats rfl⟩

/-- C7 counterexample: a `MultiEdit` call with 4 edits, no flags and a fresh
session does auto-activate via the batch-edit threshold, but when the
MorphLLM backend is unavailable (here `MORPH_API_KEY` unset) the decision is
`allow` with a fallback annotation, not `block` as the claim states. -/
theorem multiedit_block_counterexample :
    parse_flags
      ⟨false, false, false, false, [], false, false,
       fun _ => Listing.absent, fun _ => none, none⟩ = [] ∧
    initSessionStats.total_operations < filesystem_operations_threshold ∧
    is_batch_operation
      ⟨none, some "/w.py", some [JsonVal.null, JsonVal.null, JsonVal.null, JsonVal.null]⟩
      = true ∧
    should_auto_activate
      ⟨false, false, false, false, [], false, false,
       fun _ => Listing.absent, fun _ => none, none⟩
      { initSessionStats with total_operations := initSessionStats.total_operations + 1 }
      "MultiEdit"
      ⟨none, some "/w.py", some [JsonVal.null, JsonVal.null, JsonVal.null, JsonVal.null]⟩
      [] = true ∧
    ((process_tool_call
      ⟨false, false, false, false, [], false, false,
       fun _ => Listing.absent, fun _ => none, none⟩
      initSessionStats "MultiEdit"
      ⟨none, some "/w.py", some [JsonVal.null, JsonVal.null, JsonVal.null, JsonVal.null]⟩).1).action
      = ActionKind.allow ∧
    ((process_tool_call
      ⟨false, false, false, false, [], false, false,
       fun _ => Listing.absent, fun _ => none, none⟩
      initSessionStats "MultiEdit"
      ⟨none, some "/w.py", some [JsonVal.null, JsonVal.null, JsonVal.null, JsonVal.null]⟩).1).action
      ≠ ActionKind.block :=
  ⟨rfl, by decide, rfl, rfl, rfl, by decide⟩

/-- C7 as amended: with 4 edits, no flags, a fresh session and the MorphLLM
backend available (`MORPH_API_KEY` set and the server listed), the batch-edit
threshold of 3 is met, auto-activation triggers, and the decision is `block`;
without backend availability the interception falls back to `allow`. -/
theorem multiedit_batch_autoactivation (env : Env) (st : SessionStats)
    (ti : ToolInput) (es : List JsonVal)
    (hflags : parse_flags env = [])
    (_hfresh : st.total_operations < filesystem_operations_threshold)
    (hedits : ti.edits = some es) (hlen : es.length = 4)
    (havail : validate_morph_server env = true) :
    is_batch_operation ti = true ∧
    should_auto_activate env
      { st with total_operations := st.total_operations + 1 }
      "MultiEdit" ti (parse_flags env) = true ∧
    ((process_tool_call env st "MultiEdit" ti).1).action = ActionKind.block := by
  have hbatch : is_batch_operation ti = true := by
    simp [is_batch_operation, hedits, hlen, batch_edits_threshold]
  have hauto : should_auto_activate env
      { st with total_operations := st.total_operations + 1 }
      "MultiEdit" ti (parse_flags env) = true := by
    simp only [should_auto_activate]
    rw [show inToolMapping "MultiEdit" = true from rfl]
    by_cases h5 : filesystem_operations_threshold ≤ st.total_operations + 1
    · simp [h5]
    · simp [h5, hbatch]
  have hsafe : should_use_safe_directory_tree env "MultiEdit" ti = false := rfl
  have hintercept : should_intercept env
      { st with total_operations := st.total_operations + 1 }
      "MultiEdit" ti (parse_flags env) = true := by
    have hauto2 := hauto
    rw [hflags] at hauto2
    simp [should_intercept, hflags, hauto2]
  refine ⟨hbatch, hauto, ?_⟩
  simp [process_tool_call, hsafe, hintercept, havail]

/-- Witness for the amended C7 at a concrete available backend. -/
theorem multiedit_batch_autoactivation_witness :
    ((process_tool_call
      ⟨false, false, false, false, [], true, true,
       fun _ => Listing.absent, fun _ => none, none⟩
      initSessionStats "MultiEdit"
      ⟨none, some "/w.py", some [JsonVal.null, JsonVal.null, JsonVal.null, JsonVal.null]⟩).1).action
      = ActionKind.block :=
  (multiedit_batch_autoactivation
    ⟨false, false, false, false, [], true, true,
     fun _ => Listing.absent, fun _ => none, none⟩
    initSessionStats
    ⟨none, some "/w.py", some [JsonVal.null, JsonVal.null, JsonVal.null, JsonVal.null]⟩
    [JsonVal.null, JsonVal.null, JsonVal.null, JsonVal.null]
    rfl (by decide) rfl rfl rfl).2.2

theorem process_decision_exit_code (env : Env) (st : SessionStats)
    (tool_name : String) (tool_input : ToolInput) :
    (((process_tool_call env st tool_name tool_input).1).action = ActionKind.allow →
      ((process_tool_call env st tool_name tool_input).1).exit_code = none) ∧
    (((process_tool_call env st tool_name tool_input).1).action = ActionKind.block →
      ((process_tool_call env st tool_name tool_input).1).exit_code = some 2) := by
  simp only [process_tool_call]
  split
  · exact ⟨fun h => (nomatch h), fun _ => rfl⟩
  · split
    · split
      · exact ⟨fun _ => rfl, fun h => (nomatch h)⟩
      · exact ⟨fun h => (nomatch h), fun _ => rfl⟩
    · exact ⟨fun _ => rfl, fun h => (nomatch h)⟩

/-- C8: the hook process is fail-open.  A malformed tool-call argument
(`json.loads` raises) and any unexpected internal fault during
decision-making are converted into an `allow` decision carrying an error
annotation with exit code 0, never a crash; a normal run exits 0 when the
decision is `allow` and with the nonzero code 2 when it is `block`. -/
theorem main_fail_open_spec (env : Env) (tool_name : String) (tool_input : ToolInput)
    (msg : String) :
    ((mainRun env (some HookArg.malformed)).action = some ActionKind.allow ∧
     (mainRun env (some HookArg.malformed)).errorField.isSome = true ∧
     (mainRun env (some HookArg.malformed)).exitCode = 0) ∧
    (env.internalFault = some msg →
      (mainRun env (some (HookArg.parsed tool_name tool_input))).action
        = some ActionKind.allow ∧
      (mainRun env (some (HookArg.parsed tool_name tool_input))).errorField = some msg ∧
      (mainRun env (some (HookArg.parsed tool_name tool_input))).exitCode = 0) ∧
    (env.internalFault = none →
      (((process_tool_call env initSessionStats tool_name tool_input).1).action
          = ActionKind.allow →
        (mainRun env (some (HookArg.parsed tool_name tool_input))).exitCode = 0) ∧
      (((process_tool_call env initSessionStats tool_name tool_input).1).action
          = ActionKind.block →
        (mainRun env (some (HookArg.parsed tool_name tool_input))).exitCode = 2)) := by
  refine ⟨⟨rfl, rfl, rfl⟩, ?_, ?_⟩
  · intro hf
    simp [mainRun, hf]
  · intro hf
    constructor
    · intro hallow
      simp [mainRun, hf, (process_decision_exit_code env initSessionStats
        tool_name tool_input).1 hallow]
    · intro hblock
      simp [mainRun, hf, (process_decision_exit_code env initSessionStats
        tool_name tool_input).2 hblock]

/-- Witness for C8: an injected internal fault yields allow/exit 0, and a
normal blocked call (available backend, `--morph-only`) exits 2. -/
theorem main_fail_open_spec_witness :
    ((mainRun
      ⟨false, false, false, false, [], false, false,
       fun _ => Listing.absent, fun _ => none, some "boom"⟩
      (some (HookArg.parsed "Read" ⟨none, none, none⟩))).exitCode = 0) ∧
    ((mainRun
      ⟨false, true, false, false, [], true, true,
       fun _ => Listing.absent, fun _ => none, none⟩
      (some (HookArg.parsed "Read" ⟨none, none, none⟩))).exitCode = 2) := by
  constructor
  · exact ((main_fail_open_spec
      ⟨false, false, false, false, [], false, false,
       fun _ => Listing.absent, fun _ => none, some "boom"⟩
      "Read" ⟨none, none, none⟩ "boom").2.1 rfl).2.2
  · exact ((main_fail_open_spec
      ⟨false, true, false, false, [], true, true,
       fun _ => Listing.absent, fun _ => none, none⟩
      "Read" ⟨none, none, none⟩ "unused").2.2 rfl).2 rfl

/-! ### The operations-count branch is dead through the entry point -/

theorem should_auto_activate_eq_noOps (env : Env) (st : SessionStats)
    (tool_name : String) (tool_input : ToolInput) (flags : List String)
    (hlt : st.total_operations < filesystem_operations_threshold) :
    should_auto_activate env st tool_name tool_input flags =
      should_auto_activate_noOps env st tool_name tool_input flags := by
  cases hm : inToolMapping tool_name with
  | false => simp [should_auto_activate, should_auto_activate_noOps, hm]
  | true => simp [should_auto_activate, should_auto_activate_noOps, hm, Nat.not_le.mpr hlt]

theorem should_intercept_eq_noOps (env : Env) (st : SessionStats)
    (tool_name : String) (tool_input : ToolInput) (flags : List String)
    (hlt : st.total_operations < filesystem_operations_threshold) :
    should_intercept env st tool_name tool_input flags =
      should_intercept_noOps env st tool_name tool_input flags := by
  simp only [should_intercept, should_intercept_noOps,
    should_auto_activate_eq_noOps env st tool_name tool_input flags hlt]

theorem process_tool_call_init_eq_noOps (env : Env) (tool_name : String)
    (tool_input : ToolInput) :
    process_tool_call env initSessionStats tool_name tool_input =
      process_tool_call_noOps env initSessionStats tool_name tool_input := by
  simp only [process_tool_call, process_tool_call_noOps]
  rw [should_intercept_eq_noOps env _ tool_name tool_input (parse_flags env)
    (by simp [initSessionStats, filesystem_operations_threshold])]

/-- C10: in every run reached through the process entry point the
operations-count branch of auto-activation is dead: the interceptor instance
is fresh (counters `initSessionStats`), `total_operations` is incremented
exactly once before the auto-activation check, so the check compares 1
against the threshold 5 and the condition is false; hence `mainRun` coincides
with the variant whose operations-count branch is deleted. -/
theorem entrypoint_ops_branch_dead (env : Env) (arg : Option HookArg) :
    initSessionStats.total_operations + 1 < filesystem_operations_threshold ∧
    mainRun env arg = mainRun_noOps env arg := by
  refine ⟨by decide, ?_⟩
  cases arg with
  | none => rfl
  | some a =>
    cases a with
    | malformed => rfl
    | parsed tool_name tool_input =>
      cases hf : env.internalFault with
      | some msg => simp [mainRun, mainRun_noOps, hf]
      | none =>
        simp [mainRun, mainRun_noOps, hf,
          process_tool_call_init_eq_noOps env tool_name tool_input]

/-! ### Hook command path validation -/

theorem ite_ok {c : Prop} [Decidable c] {x y : Except String (List String)}
    (hx : ∃ a, x = Except.ok a) (hy : ∃ b, y = Except.ok b) :
    ∃ r, (if c then x else y) = Except.ok r := by
  by_cases h : c
  · simpa [h] using hx
  · simpa [h] using hy

theorem checkOneHook_ok (env : PathEnv) (hook_type : String) (i : Nat) (h : JsonVal)
    (hcond : ∀ hd, h = JsonVal.obj hd →
      ∃ s, slookup hd "command" = some (JsonVal.str s) ∧ tokenize s ≠ []) :
    ∃ errs, checkOneHook env hook_type i h = Except.ok errs := by
  cases h with
  | obj hd =>
    obtain ⟨s, hs, htok⟩ := hcond hd rfl
    simp only [checkOneHook, hs, Option.getD_some]
    by_cases hse : s = ""
    · subst hse
      exact absurd rfl htok
    · simp only [jsonFalsy, hse, decide_False, Bool.false_eq_true, if_false]
      cases htk : tokenize s with
      | nil => exact absurd htk htok
      | cons p0 ps =>
        exact ite_ok ⟨_, rfl⟩ (ite_ok ⟨_, rfl⟩ ⟨_, rfl⟩)
  | arr l => exact ⟨_, rfl⟩
  | str s => exact ⟨_, rfl⟩
  | num n => exact ⟨_, rfl⟩
  | bool b => exact ⟨_, rfl⟩
  | null => exact ⟨_, rfl⟩

theorem checkHookEntries_ok (env : PathEnv) (hook_type : String)
    (hooks : List JsonVal) :
    ∀ i : Nat,
      (∀ h ∈ hooks, ∀ hd, h = JsonVal.obj hd →
        ∃ s, slookup hd "command" = some (JsonVal.str s) ∧ tokenize s ≠ []) →
      ∃ errs, checkHookEntries env hook_type i hooks = Except.ok errs := by
  induction hooks with
  | nil => exact fun i _ => ⟨[], rfl⟩
  | cons h rest ih =>
    intro i hcond
    obtain ⟨e1, he1⟩ := checkOneHook_ok env hook_type i h
      (fun hd heq => hcond h (List.mem_cons_self h rest) hd heq)
    obtain ⟨e2, he2⟩ := ih (i + 1)
      (fun h2 hh2 => hcond h2 (List.mem_cons_of_mem h hh2))
    refine ⟨e1 ++ e2, ?_⟩
    simp only [checkHookEntries, he1, he2]
    rfl

theorem checkHookTypes_ok (env : PathEnv) (cfg : List (String × JsonVal))
    (hcond : ∀ p ∈ cfg, ∀ hook_list, p.2 = JsonVal.arr hook_list →
      ∀ h ∈ hook_list, ∀ hd, h = JsonVal.obj hd →
        ∃ s, slookup hd "command" = some (JsonVal.str s) ∧ tokenize s ≠ []) :
    ∃ errs, checkHookTypes env cfg = Except.ok errs := by
  induction cfg with
  | nil => exact ⟨[], rfl⟩
  | cons p rest ih =>
    obtain ⟨e2, he2⟩ := ih
      (fun p2 hp2 => hcond p2 (List.mem_cons_of_mem p hp2))
    have h1 : ∃ e1, checkHookType env p = Except.ok e1 := by
      cases hv : p.2 with
      | arr hook_list =>
        obtain ⟨e1, he1⟩ := checkHookEntries_ok env p.1 hook_list 0
          (hcond p (List.mem_cons_self p rest) hook_list hv)
        exact ⟨e1, by simp [checkHookType, hv, he1]⟩
      | obj m =>
        exact ⟨["Hook type " ++ p.1 ++ " should be a list"], by simp [checkHookType, hv]⟩
      | str s =>
        exact ⟨["Hook type " ++ p.1 ++ " should be a list"], by simp [checkHookType, hv]⟩
      | num n =>
        exact ⟨["Hook type " ++ p.1 ++ " should be a list"], by simp [checkHookType, hv]⟩
      | bool b =>
        exact ⟨["Hook type " ++ p.1 ++ " should be a list"], by simp [checkHookType, hv]⟩
      | null =>
        exact ⟨["Hook type " ++ p.1 ++ " should be a list"], by simp [checkHookType, hv]⟩
    obtain ⟨e1, he1⟩ := h1
    refine ⟨e1 ++ e2, ?_⟩
    simp only [checkHookTypes, he1, he2]
    rfl

/-- C9: `validate_hooks_paths` can raise instead of returning: a hook entry
whose command is nonempty but all whitespace passes the emptiness check,
tokenizes to an empty list, and indexing the first token raises `IndexError`
(first conjunct, at a concrete configuration).  Whenever every hook entry
command is a string with at least one token the check is total (second
conjunct), and missing script paths are reported as error strings, one per
entry (third conjunct, at a concrete configuration whose path does not
exist). -/
theorem validate_hooks_paths_spec (env : PathEnv) (cfg : List (String × JsonVal))
    (hcond : ∀ p ∈ cfg, ∀ hook_list, p.2 = JsonVal.arr hook_list →
      ∀ h ∈ hook_list, ∀ hd, h = JsonVal.obj hd →
        ∃ s, slookup hd "command" = some (JsonVal.str s) ∧ tokenize s ≠ []) :
    validate_hooks_paths ⟨fun _ => false, fun _ => false⟩
      [("preToolUse", JsonVal.arr
        [JsonVal.obj [("matcher", JsonVal.str "x"), ("command", JsonVal.str " ")]])]
      = Except.error "IndexError: list index out of range" ∧
    (∃ r, validate_hooks_paths env cfg = Except.ok r) ∧
    validate_hooks_paths ⟨fun _ => false, fun _ => false⟩
      [("preToolUse", JsonVal.arr
        [JsonVal.obj [("matcher", JsonVal.str "x"), ("command", JsonVal.str "run.sh")]])]
      = Except.ok (false, ["Hook script not found: run.sh"]) := by
  refine ⟨rfl, ?_, rfl⟩
  by_cases hemp : cfg.isEmpty
  · exact ⟨(true, []), by simp [validate_hooks_paths, hemp]⟩
  · obtain ⟨errs, herrs⟩ := checkHookTypes_ok env cfg hcond
    exact ⟨(errs.isEmpty, errs), by simp [validate_hooks_paths, hemp, herrs]⟩

/-- Witness for C9 at a concrete environment and configuration with a
one-token command. -/
theorem validate_hooks_paths_spec_witness :
    ∃ r, validate_hooks_paths ⟨fun _ => true, fun _ => true⟩
      [("preToolUse", JsonVal.arr
        [JsonVal.obj [("matcher", JsonVal.str "x"), ("command", JsonVal.str "run.sh")]])]
      = Except.ok r :=
  (validate_hooks_paths_spec ⟨fun _ => true, fun _ => true⟩
    [("preToolUse", JsonVal.arr
      [JsonVal.obj [("matcher", JsonVal.str "x"), ("command", JsonVal.str "run.sh")]])]
    (by
      intro p hp hook_list heq h hh hd heq2
      simp only [List.mem_singleton] at hp
      subst hp
      simp only at heq
      injection heq with h3
      subst h3
      simp only [List.mem_singleton] at hh
      subst hh
      injection heq2 with h4
      subst h4
      exact ⟨"run.sh", rfl, by decide⟩)).2.1



